import Mathlib

/- Verification of the Riivolution patcher core.

   Shallow embedding of `DiscIO/RiivolutionPatcher.cpp` together with the content
   segment model of `DiscIO/DirectoryBlob.h`.  C++ strings are modelled as `List Char`,
   `u64` quantities (file offsets and sizes) as `Nat`, and `u32` quantities (memory
   addresses and instruction words) as `Nat` with explicit `% 2^32` where the
   32-bit wrap-around is observable.  `std::optional` becomes `Option`,
   `std::vector` becomes `List`, and in-place mutation becomes explicit state
   passing (a function returns the updated object).

   The file has two parts: first all definitions (the embedding), then the theorems. -/

namespace Riivolution

abbrev Str := List Char

/-- `Common::ToLower` on a single character: ASCII lowercasing (A-Z get offset to a-z,
everything else is returned unchanged). -/
def ToLower (c : Char) : Char :=
  if 'A' ≤ c ∧ c ≤ 'Z' then Char.ofNat (c.toNat + 32) else c

/- ---------------------------------------------------------------------------
   Path Sandbox Resolver: `FileDataLoaderHostFS::MakeAbsoluteFromRelative`.
   --------------------------------------------------------------------------- -/

/-- Strip away all leading path separators
(`while (StringBeginsWith(work, "/")) work.remove_prefix(1)`). -/
def stripLeadingSeparators (l : Str) : Str := l.dropWhile (· == '/')

/-- Strip away all trailing path separators
(`while (StringEndsWith(work, "/")) work.remove_suffix(1)`). -/
def stripTrailingSeparators (l : Str) : Str := ((l.reverse).dropWhile (· == '/')).reverse

/-- Remove the last path element from the result string:
`while (result.back() != '/') result.pop_back(); result.pop_back();`.
Popping characters from the back of the string is dropping them from the front
of the reversed string. -/
def removeLastPathComponent (result : Str) : Str :=
  (((result.reverse).dropWhile (· != '/')).drop 1).reverse

/-- One iteration body of the `while (true)` loop of `MakeAbsoluteFromRelative`,
acting on one extracted path `element` (the four branches on the element, in source
order). `none` models the early `return std::nullopt`. -/
def processPathElement (result : Str) (depth : Nat) (element : Str) : Option (Str × Nat) :=
  if element = ['.'] then
    -- This is a harmless element, doesn't change any state.
    some (result, depth)
  else if element = ['.', '.'] then
    -- Going up a level; prevented when this would exit the root directory.
    if depth = 0 then none
    else some (removeLastPathComponent result, depth - 1)
  else if element.all (· == '.') then
    -- Triple, quadruple, etc. dot: always an error.
    none
  else
    -- Going down a level: append the element.
    some (result ++ '/' :: element, depth + 1)

/-- The `while (true)` loop of `MakeAbsoluteFromRelative`: repeatedly extract the
element before the first `/`, process it, stop when the work string is exhausted,
and strip extra separators before the next round. -/
def MakeAbsoluteFromRelativeLoop (result : Str) (depth : Nat) (work : Str) : Option Str :=
  if work = [] then some result
  else
    let element := work.takeWhile (· != '/')
    let restWithSep := work.dropWhile (· != '/')
    match processPathElement result depth element with
    | none => none
    | some (result2, depth2) =>
      -- If this was the last path element, we're done; otherwise remove the
      -- element and the separator and any extra separators from the work string.
      if restWithSep = [] then some result2
      else MakeAbsoluteFromRelativeLoop result2 depth2 ((restWithSep.drop 1).dropWhile (· == '/'))
termination_by work.length
decreasing_by
  have hdw : ∀ (l : Str), (l.dropWhile (· == '/')).length ≤ l.length := by
    intro l
    induction l with
    | nil => simp
    | cons c l ih =>
      by_cases h : (c == '/')
      · simp only [List.dropWhile_cons, h, if_true, List.length_cons]
        omega
      · simp [List.dropWhile_cons, h]
  have h1 : (work.takeWhile (· != '/')).length + (work.dropWhile (· != '/')).length
      = work.length := by
    rw [← List.length_append, List.takeWhile_append_dropWhile]
  have h2 := hdw ((work.dropWhile (· != '/')).drop 1)
  have h3 : (work.dropWhile (· != '/')).length ≠ 0 := by
    intro hz
    exact absurd (List.eq_nil_of_length_eq_zero hz) (by assumption)
  simp only [List.length_drop] at h2 ⊢
  omega

/-- `FileDataLoaderHostFS::MakeAbsoluteFromRelative` (the Windows-only backslash
rejection is compiled out on this platform).  The starting root is the SD root
for paths beginning with `/` and the patch root otherwise; then the stripped
path is walked element by element keeping the depth counter. -/
def MakeAbsoluteFromRelative (m_sd_root m_patch_root : Str)
    (external_relative_path : Str) : Option Str :=
  let result := if external_relative_path.head? = some '/' then m_sd_root else m_patch_root
  let work := stripTrailingSeparators (stripLeadingSeparators external_relative_path)
  MakeAbsoluteFromRelativeLoop result 0 work

/- ---------------------------------------------------------------------------
   Content Segment Model: `DiscIO/DirectoryBlob.h`.
   --------------------------------------------------------------------------- -/

/-- The `ContentSource` variant.  `ContentFile` holds a host path and the offset
into that file; the raw-memory alternative `const u8*` is modelled by the pointer
value as a number; `ContentPartition`/`ContentVolume` keep their offset field and
opaque handles; `ContentFixedByte` is a run of one fixed byte value. -/
inductive ContentSource where
  | contentFile (m_filename : Str) (m_offset : Nat)
  | contentMemory (ptr : Nat)
  | contentPartition (m_reader : Nat) (m_offset : Nat) (m_partition_data_offset : Nat)
  | contentVolume (m_offset : Nat) (m_volume : Nat) (m_partition : Nat)
  | contentFixedByte (m_byte : Nat)
deriving DecidableEq, Repr

/-- `BuilderContentSource`: bytes `[m_offset, m_offset + m_size)` of the file being
described come from `m_source`. -/
structure BuilderContentSource where
  m_offset : Nat
  m_size : Nat
  m_source : ContentSource
deriving DecidableEq, Repr

/-- `SplitAt(before, after, split_at)` where `before` and `after` start as two copies
of the same source; returns the (before, after) pair.  The source after the split has
its start point advanced by the size of the part before the split, in whichever
representation the variant uses. -/
def SplitAt (s : BuilderContentSource) (split_at : Nat) : BuilderContentSource × BuilderContentSource :=
  let start := s.m_offset
  let size := s.m_size
  let endPos := start + size
  let beforeSize := split_at - start
  let afterSource : ContentSource :=
    match s.m_source with
    | .contentFile f o => .contentFile f (o + beforeSize)
    | .contentMemory p => .contentMemory (p + beforeSize)
    | .contentPartition r o pdo => .contentPartition r (o + beforeSize) pdo
    | .contentVolume o v pa => .contentVolume (o + beforeSize) v pa
    | .contentFixedByte b => .contentFixedByte b
  ({ s with m_size := beforeSize },
   { m_offset := start + beforeSize, m_size := endPos - split_at, m_source := afterSource })

/-- The strict-straddle test used by the split loop of `ApplyPatchToFile`:
`x > source_start && x < source_end`. -/
def strictlyInside (x : Nat) (s : BuilderContentSource) : Bool :=
  decide (s.m_offset < x) && decide (x < s.m_offset + s.m_size)

/-- Effect of the split loop of `ApplyPatchToFile` on one existing segment.
The C++ loop walks the vector by index: a segment straddling `patch_start` is
split there (and the loop then inspects the second half, which can only straddle
`patch_end`); a segment straddling only `patch_end` is split there.  Each original
segment thus becomes the following one-, two- or three-element run. -/
def splitSegmentAt (ps pe : Nat) (s : BuilderContentSource) : List BuilderContentSource :=
  if strictlyInside ps s then
    let ab := SplitAt s ps
    if strictlyInside pe ab.2 then
      let cd := SplitAt ab.2 pe
      [ab.1, cd.1, cd.2]
    else [ab.1, ab.2]
  else if strictlyInside pe s then
    let ab := SplitAt s pe
    [ab.1, ab.2]
  else [s]

/-- The whole split loop: every existing segment is replaced by its split run. -/
def splitLoop (ps pe : Nat) (content : List BuilderContentSource) : List BuilderContentSource :=
  content.flatMap (splitSegmentAt ps pe)

/-- The inner `while` of the erase loop of `ApplyPatchToFile`: starting from the
segment whose offset equals `patch_start`, skip (i.e. erase) consecutive segments
while `patch_end >= m_offset + m_size`. -/
def dropContained (pe : Nat) : List BuilderContentSource → List BuilderContentSource
  | [] => []
  | s :: rest => if pe ≥ s.m_offset + s.m_size then dropContained pe rest else s :: rest

/-- The erase loop of `ApplyPatchToFile`: find the first segment whose offset equals
`patch_start`, erase from it every consecutive segment wholly at or before
`patch_end`, and report the erase position as the insertion index.  `none` models
the case where no segment offset equals `patch_start` (the loop then never fires and
`insert_where` keeps its initial value 0 with the content unchanged). -/
def eraseAndFindInsert (ps pe : Nat) :
    List BuilderContentSource → Option (List BuilderContentSource × Nat)
  | [] => none
  | s :: rest =>
    if s.m_offset = ps then some (dropContained pe (s :: rest), 0)
    else
      match eraseAndFindInsert ps pe rest with
      | some (r, w) => some (s :: r, w + 1)
      | none => none

/-- The final truncation loop of `ApplyPatchToFile`:
`while (!content.empty() && content.back().m_offset >= target) content.pop_back()`.
Popping from the back is dropping from the front of the reversed list. -/
def dropTrailing (target : Nat) (content : List BuilderContentSource) :
    List BuilderContentSource :=
  ((content.reverse).dropWhile (fun s => decide (s.m_offset ≥ target))).reverse

/-- Modelled from the spec: the External Data Loader interface (`FileDataLoader`;
only its host-filesystem implementation is in the sources).  `GetExternalFileSize`
returns the size of an external resource if it exists, `MakeContentSource` builds
the content segment describing `external_size` bytes of the resource starting at
`external_offset` placed at `disc_offset`, and `GetFileContents` returns the raw
bytes of the resource (empty on failure). -/
structure FileDataLoader where
  GetExternalFileSize : Str → Option Nat
  MakeContentSource : Str → Nat → Nat → Nat → BuilderContentSource
  GetFileContents : Str → List Nat

/-- `FileDataLoaderHostFS::MakeContentSource`: resolve the external path through the
sandbox; on failure fall back to fixed zero padding, otherwise reference the
resolved host file at the external offset. -/
def FileDataLoaderHostFS.MakeContentSource (m_sd_root m_patch_root : Str)
    (external_relative_path : Str) (external_offset external_size disc_offset : Nat) :
    BuilderContentSource :=
  match MakeAbsoluteFromRelative m_sd_root m_patch_root external_relative_path with
  | none => ⟨disc_offset, external_size, .contentFixedByte 0⟩
  | some path => ⟨disc_offset, external_size, .contentFile path external_offset⟩

/-- The `m_size` and file-content (`std::vector<BuilderContentSource>`) fields of an
`FSTBuilderNode` holding a file, i.e. the state mutated by `ApplyPatchToFile`. -/
structure FSTFileNodeData where
  m_size : Nat
  content : List BuilderContentSource
deriving DecidableEq, Repr

/-- The two insertions at the end of `ApplyPatchToFile` (insert the actual patch
data when there is any, then pad with zeroes when the patch file is smaller than
the patch size), acting on the content list and insertion index produced by the
placement step. -/
def insertPatchEntries (loader : FileDataLoader) (external_filename : Str)
    (external_file_offset patch_size external_filesize patch_start : Nat)
    (cw : List BuilderContentSource × Nat) : List BuilderContentSource :=
  let step2 : List BuilderContentSource × Nat :=
    if 0 < patch_size ∧ 0 < external_filesize then
      (cw.1.insertIdx cw.2
        (loader.MakeContentSource external_filename external_file_offset
          (min patch_size external_filesize) patch_start),
       cw.2 + 1)
    else cw
  if external_filesize < patch_size then
    step2.1.insertIdx step2.2
      ⟨patch_start + external_filesize, patch_size - external_filesize, .contentFixedByte 0⟩
  else step2.1

/-- `ApplyPatchToFile(patch, file_node, external_filename, file_patch_offset,
raw_external_file_offset, file_patch_length, resize)`, the mutable splice builder.
The `patch.m_file_data_loader` indirection is the explicit `loader` argument. -/
def ApplyPatchToFile (loader : FileDataLoader) (node : FSTFileNodeData)
    (external_filename : Str) (file_patch_offset raw_external_file_offset : Nat)
    (file_patch_length : Nat) (resize : Bool) : FSTFileNodeData :=
  match loader.GetExternalFileSize external_filename with
  | none => node
  | some raw_external_filesize =>
    let external_file_offset := min raw_external_file_offset raw_external_filesize
    let external_filesize := raw_external_filesize - external_file_offset
    let patch_start := file_patch_offset
    let patch_size := if file_patch_length = 0 then external_filesize else file_patch_length
    let patch_end := patch_start + patch_size
    let target_filesize := if resize then patch_end else max node.m_size patch_end
    let step1 : List BuilderContentSource × Nat :=
      if node.m_size ≤ patch_start then
        -- Patch at or past the end of the existing file: possibly insert a
        -- padding area, and insert the patch data at the end.
        let content :=
          if node.m_size < patch_start then
            node.content ++ [⟨node.m_size, patch_start - node.m_size, .contentFixedByte 0⟩]
          else node.content
        (content, content.length)
      else
        -- Patch at the start or in the middle: split at the patch boundaries,
        -- then discard the overlapped sources and remember the position.
        let split := splitLoop patch_start patch_end node.content
        match eraseAndFindInsert patch_start patch_end split with
        | some (c, w) => (c, w)
        | none => (split, 0)
    { m_size := target_filesize,
      content := dropTrailing target_filesize
        (insertPatchEntries loader external_filename external_file_offset patch_size
          external_filesize patch_start step1) }

/-- Modelled from the spec: the `File` patch-directive record (produced by the
out-of-scope parser), with the field names used by the patcher sources. -/
structure File where
  m_disc : Str
  m_external : Str
  m_resize : Bool
  m_create : Bool
  m_length : Nat
  m_offset : Nat
  m_fileoffset : Nat

/-- `m_offset & ~u64(3)`: the last two bits of a file patch offset are ignored. -/
def alignDown4 (o : Nat) : Nat := o - o % 4

/-- The `ApplyPatchToFile(patch, file_patch, file_node)` overload: forwards to the
splice builder with the offset aligned down to a 4-byte boundary. -/
def ApplyPatchToFileDirective (loader : FileDataLoader) (file_patch : File)
    (node : FSTFileNodeData) : FSTFileNodeData :=
  ApplyPatchToFile loader node file_patch.m_external (alignDown4 file_patch.m_offset)
    file_patch.m_fileoffset file_patch.m_length file_patch.m_resize

/- ---------------------------------------------------------------------------
   Tree Resolver: `FSTBuilderNode` and FST patch application.
   --------------------------------------------------------------------------- -/

/-- `FSTBuilderNode`: name, size, and either file content (a list of content
sources) or folder content (child nodes); the two constructors model the two
`std::variant` alternatives of `m_content`. -/
inductive FSTBuilderNode where
  | file (m_filename : Str) (m_size : Nat) (sources : List BuilderContentSource)
  | folder (m_filename : Str) (m_size : Nat) (children : List FSTBuilderNode)

/-- The `m_filename` field. -/
def FSTBuilderNode.m_filename : FSTBuilderNode → Str
  | .file nm _ _ => nm
  | .folder nm _ _ => nm

/-- The `m_size` field. -/
def FSTBuilderNode.m_size : FSTBuilderNode → Nat
  | .file _ sz _ => sz
  | .folder _ sz _ => sz

/-- `FSTBuilderNode::IsFile`. -/
def FSTBuilderNode.IsFile : FSTBuilderNode → Bool
  | .file _ _ _ => true
  | .folder _ _ _ => false

/-- `CaseInsensitiveEquals`: equal lengths and pointwise equality after
`Common::ToLower`. -/
def CaseInsensitiveEquals (a b : Str) : Bool :=
  a.length == b.length &&
    (List.zip a b).all (fun cab => ToLower cab.1 == ToLower cab.2)

/-- `ApplyPatchToFile(patch, file_patch, file_node)` lifted to a tree node: patches
the size and the file content of a file node.  Tree lookup only ever hands file
nodes (and the caller the DOL file node) to it; on a folder node, where the C++
`std::get` would throw, this is the identity. -/
def applyPatchToFileNode (loader : FileDataLoader) (file_patch : File) :
    FSTBuilderNode → FSTBuilderNode
  | .file nm sz sources =>
    let r := ApplyPatchToFileDirective loader file_patch ⟨sz, sources⟩
    .file nm r.m_size r.content
  | .folder nm sz children => .folder nm sz children

/-- `FindFileNodeInFST(path, fst, create_if_not_exists)` fused with the patch `g`
applied at the found (or created) file node: the C++ function returns a pointer
into the vector and the caller mutates through it; here the mutation is applied in
place and the updated vector is returned.  `none` models the C++ `nullptr` result
(in which case the C++ leaves the vector unchanged: nodes are only created on
paths whose lookup then succeeds). -/
def FindFileNodeInFST (g : FSTBuilderNode → FSTBuilderNode) (path : Str)
    (fst : List FSTBuilderNode) (create_if_not_exists : Bool) :
    Option (List FSTBuilderNode) :=
  let name := path.takeWhile (· != '/')
  match fst with
  | [] =>
    -- `std::find_if` found nothing in this folder
    if !create_if_not_exists then none
    else
      match _h9 : path.dropWhile (· != '/') with
      | [] => some [g (.file name 0 [])]
      | _ :: rest2 =>
        match FindFileNodeInFST g rest2 [] true with
        | some ch => some [.folder name 0 ch]
        | none => none
  | node :: rest =>
    if CaseInsensitiveEquals node.m_filename name then
      match node with
      | .file nm sz sources =>
        match path.dropWhile (· != '/') with
        | [] => some (g (.file nm sz sources) :: rest)
        | _ :: _ => none
      | .folder nm sz children =>
        match _h9 : path.dropWhile (· != '/') with
        | [] => none
        | _ :: rest2 =>
          match FindFileNodeInFST g rest2 children create_if_not_exists with
          | some ch => some (.folder nm sz ch :: rest)
          | none => none
    else
      match FindFileNodeInFST g path rest create_if_not_exists with
      | some fst2 => some (node :: fst2)
      | none => none
termination_by (path.length, fst.length)
decreasing_by
  all_goals
    have h1 : (path.takeWhile (· != '/')).length + (path.dropWhile (· != '/')).length
        = path.length := by
      rw [← List.length_append, List.takeWhile_append_dropWhile]
  · apply Prod.Lex.left
    have h2 := congrArg List.length _h9
    simp only [List.length_cons] at h2
    omega
  · apply Prod.Lex.left
    have h2 := congrArg List.length _h9
    simp only [List.length_cons] at h2
    omega
  · apply Prod.Lex.right
    simp only [List.length_cons]
    omega

/-- `FindFilenameNodeInFST(filename, fst)` fused with the patch `g` applied at the
first file node, depth-first with folders recursed into in order, whose name
matches case-insensitively. -/
def FindFilenameNodeInFST (g : FSTBuilderNode → FSTBuilderNode) (filename : Str) :
    List FSTBuilderNode → Option (List FSTBuilderNode)
  | [] => none
  | .folder nm sz children :: rest =>
    match FindFilenameNodeInFST g filename children with
    | some ch => some (.folder nm sz ch :: rest)
    | none =>
      match FindFilenameNodeInFST g filename rest with
      | some r => some (.folder nm sz children :: r)
      | none => none
  | .file nm sz sources :: rest =>
    if CaseInsensitiveEquals nm filename then some (g (.file nm sz sources) :: rest)
    else
      match FindFilenameNodeInFST g filename rest with
      | some r => some (.file nm sz sources :: r)
      | none => none

/-- `ApplyFilePatchToFST(patch, file, fst, dol_node)`: a disc path starting with
`/` names an exact tree path; otherwise the special name `main.dol` patches the
distinguished DOL node supplied by the caller; otherwise the first file with that
bare name anywhere in the tree is patched.  Returns the updated tree and DOL node. -/
def ApplyFilePatchToFST (loader : FileDataLoader) (file : File)
    (fst : List FSTBuilderNode) (dol_node : FSTBuilderNode) :
    List FSTBuilderNode × FSTBuilderNode :=
  if file.m_disc.head? = some '/' then
    -- `!file.m_disc.empty() && file.m_disc[0] == '/'`; lookup of the path after the slash
    match FindFileNodeInFST (applyPatchToFileNode loader file) (file.m_disc.drop 1) fst
        file.m_create with
    | some fst2 => (fst2, dol_node)
    | none => (fst, dol_node)
  else if CaseInsensitiveEquals file.m_disc ['m', 'a', 'i', 'n', '.', 'd', 'o', 'l'] then
    (fst, applyPatchToFileNode loader file dol_node)
  else
    match FindFilenameNodeInFST (applyPatchToFileNode loader file) file.m_disc fst with
    | some fst2 => (fst2, dol_node)
    | none => (fst, dol_node)

/- ---------------------------------------------------------------------------
   Memory Patch Engine.
   --------------------------------------------------------------------------- -/

/-- Modelled from the spec: the live memory image, a byte-addressable space where
reads and writes can fail on unmapped addresses (`TryReadByte(a) → Option<u8>`).
Addresses are u32, so the image is queried at `address % 2^32`. -/
def MemState : Type := Nat → Option Nat

/-- Modelled from the spec: `PowerPC::HostTryReadU8`. -/
def HostTryReadU8 (mem : MemState) (address : Nat) : Option Nat := mem (address % 2 ^ 32)

/-- Modelled from the spec: `PowerPC::HostTryWriteU8` — writes the byte when the
address is mapped and silently does nothing otherwise. -/
def HostTryWriteU8 (mem : MemState) (value address : Nat) : MemState :=
  fun a =>
    if a = address % 2 ^ 32 then
      match mem a with
      | some _ => some (value % 2 ^ 8)
      | none => none
    else mem a

/-- Modelled from the spec: `PowerPC::HostTryReadU32`, a big-endian 4-byte read
that fails when any byte is unreadable. -/
def HostTryReadU32 (mem : MemState) (address : Nat) : Option Nat :=
  match HostTryReadU8 mem address, HostTryReadU8 mem (address + 1),
      HostTryReadU8 mem (address + 2), HostTryReadU8 mem (address + 3) with
  | some b0, some b1, some b2, some b3 =>
    some (b0 * 2 ^ 24 + b1 * 2 ^ 16 + b2 * 2 ^ 8 + b3)
  | _, _, _, _ => none

/-- Modelled from the spec: `PowerPC::HostTryWriteU32`, big-endian per-byte
writes. -/
def HostTryWriteU32 (mem : MemState) (value address : Nat) : MemState :=
  HostTryWriteU8
    (HostTryWriteU8
      (HostTryWriteU8
        (HostTryWriteU8 mem (value / 2 ^ 24) address)
        (value / 2 ^ 16) (address + 1))
      (value / 2 ^ 8) (address + 2))
    value (address + 3)

/-- Modelled from the spec: the hook/intercept registry as the list of registered
hook addresses; `HLE::UnpatchRange(start, end)` removes the hooks in
`[start, end)` and returns how many were removed. -/
def UnpatchRange (hooks : List Nat) (start stop : Nat) : List Nat × Nat :=
  (hooks.filter (fun a => !(decide (start ≤ a) && decide (a < stop))),
   (hooks.filter (fun a => decide (start ≤ a) && decide (a < stop))).length)

/-- The observable state a memory patch acts on: the live memory image, the hook
registry, and the diagnostics log (`warnings` collects the nonzero
overlapping-hook counts reported via `WARN_LOG_FMT`). -/
structure MemPatchState where
  mem : MemState
  hooks : List Nat
  warnings : List Nat

/-- `MemoryMatchesAt(offset, value)`: every byte read at `offset + i` must succeed
and equal `value[i]`. -/
def MemoryMatchesAt (mem : MemState) : Nat → List Nat → Bool
  | _, [] => true
  | offset, v :: rest =>
    match HostTryReadU8 mem offset with
    | some b => b == v && MemoryMatchesAt mem (offset + 1) rest
    | none => false

/-- The byte-writing loop of the direct memory patch:
`for (u32 i = 0; i < size; ++i) HostTryWriteU8(value[i], offset + i)`. -/
def writeValueBytes : MemState → Nat → List Nat → MemState
  | mem, _, [] => mem
  | mem, offset, v :: rest => writeValueBytes (HostTryWriteU8 mem v offset) (offset + 1) rest

/-- `ApplyMemoryPatch(offset, value, original)`: the direct memory patch. -/
def ApplyMemoryPatch (st : MemPatchState) (offset : Nat) (value original : List Nat) :
    MemPatchState :=
  if value = [] then st
  else if original ≠ [] ∧ MemoryMatchesAt st.mem offset original = false then st
  else
    let mem2 := writeValueBytes st.mem offset value
    let hr := UnpatchRange st.hooks (offset % 2 ^ 32) ((offset + value.length) % 2 ^ 32)
    { mem := mem2, hooks := hr.1,
      warnings := if hr.2 ≠ 0 then st.warnings ++ [hr.2] else st.warnings }

/-- Modelled from the spec: the `Memory` patch-directive record (the parser is out
of scope), with the field names the patcher uses. -/
structure Memory where
  m_offset : Nat
  m_value : List Nat
  m_valuefile : Str
  m_original : List Nat
  m_ocarina : Bool
  m_search : Bool
  m_align : Nat

/-- `GetMemoryPatchValue`: the value-file contents when a value file is named,
otherwise the literal value. -/
def GetMemoryPatchValue (loader : FileDataLoader) (memory_patch : Memory) : List Nat :=
  if memory_patch.m_valuefile ≠ [] then loader.GetFileContents memory_patch.m_valuefile
  else memory_patch.m_value

/-- The `ApplyMemoryPatch(patch, memory_patch)` overload: skip entirely at offset
0, otherwise apply the direct patch at `m_offset | 0x80000000`. -/
def ApplyMemoryPatchDirective (loader : FileDataLoader) (st : MemPatchState)
    (memory_patch : Memory) : MemPatchState :=
  if memory_patch.m_offset = 0 then st
  else
    ApplyMemoryPatch st (memory_patch.m_offset ||| 0x80000000)
      (GetMemoryPatchValue loader memory_patch) memory_patch.m_original

/-- The scanning loop shared by the search and ocarina patches: test `p` at `i`,
`i + stride`, `i + 2*stride`, ... for at most `steps` iterations and return the
first hit. -/
def scanFirst (p : Nat → Bool) (stride : Nat) : Nat → Nat → Option Nat
  | _, 0 => none
  | i, steps + 1 => if p i then some i else scanFirst p stride (i + stride) steps

/-- `ApplySearchMemoryPatch(patch, memory_patch, ram_start, length)`.  The C++
loop is `for (u32 i = 0; i < length - (stride - 1); i += stride)` with u32
arithmetic: the bound is `(length - (stride - 1)) mod 2^32`, which wraps around
when `length < stride - 1`.  The loop is modelled by its iteration count; when
the u32 bound wraps and no match exists the C++ counter itself eventually wraps
and rescans forever, a divergence this terminating model cannot exhibit. -/
def ApplySearchMemoryPatch (loader : FileDataLoader) (st : MemPatchState)
    (memory_patch : Memory) (ram_start length : Nat) : MemPatchState :=
  if memory_patch.m_original = [] ∨ memory_patch.m_align = 0 then st
  else
    let stride := memory_patch.m_align
    let bound := (length + 2 ^ 32 - (stride - 1)) % 2 ^ 32
    let steps := (bound + stride - 1) / stride
    match scanFirst
        (fun i => MemoryMatchesAt st.mem ((ram_start + i) % 2 ^ 32) memory_patch.m_original)
        stride 0 steps with
    | some i =>
      ApplyMemoryPatch st ((ram_start + i) % 2 ^ 32)
        (GetMemoryPatchValue loader memory_patch) []
    | none => st

/-- `ApplyOcarinaMemoryPatch(patch, memory_patch, ram_start, length)`: find the
first occurrence of the value pattern scanning in 4-byte steps, then from there
find the next `blr` instruction (0x4e800020), and replace it with a relative jump
to `m_offset | 0x80000000`, unpatching hooks over the rewritten word. -/
def ApplyOcarinaMemoryPatch (loader : FileDataLoader) (st : MemPatchState)
    (memory_patch : Memory) (ram_start length : Nat) : MemPatchState :=
  if memory_patch.m_offset = 0 then st
  else
    let value := GetMemoryPatchValue loader memory_patch
    if value = [] then st
    else
      let outerSteps := (length + 3) / 4
      match scanFirst (fun i => MemoryMatchesAt st.mem ((ram_start + i) % 2 ^ 32) value)
          4 0 outerSteps with
      | none => st
      | some i0 =>
        match scanFirst
            (fun i => HostTryReadU32 st.mem ((ram_start + i) % 2 ^ 32) == some 0x4e800020)
            4 i0 (outerSteps - i0 / 4) with
        | none => st
        | some i =>
          let blr_address := (ram_start + i) % 2 ^ 32
          let target := memory_patch.m_offset ||| 0x80000000
          let jmp := ((target + 2 ^ 32 - blr_address) % 2 ^ 32 &&& 0x03fffffc) ||| 0x48000000
          let hr := UnpatchRange st.hooks blr_address ((blr_address + 4) % 2 ^ 32)
          { mem := HostTryWriteU32 st.mem jmp blr_address, hooks := hr.1,
            warnings := if hr.2 ≠ 0 then st.warnings ++ [hr.2] else st.warnings }

/-- One directive step of `ApplyGeneralMemoryPatches`: ocarina patches are skipped
entirely, search patches scan from 0x80000000 over the RAM size, every other
directive is a direct patch. -/
def ApplyGeneralMemoryPatchStep (loader : FileDataLoader) (ram_size : Nat)
    (st : MemPatchState) (memory : Memory) : MemPatchState :=
  if memory.m_ocarina then st
  else if memory.m_search then ApplySearchMemoryPatch loader st memory 0x80000000 ram_size
  else ApplyMemoryPatchDirective loader st memory

/-- `ApplyGeneralMemoryPatches(patches)`: every patch contributes its loader and
its memory directives, applied in order. -/
def ApplyGeneralMemoryPatches (ram_size : Nat)
    (patches : List (FileDataLoader × List Memory)) (st : MemPatchState) : MemPatchState :=
  patches.foldl
    (fun s p => p.2.foldl (ApplyGeneralMemoryPatchStep p.1 ram_size) s) st

/- ---------------------------------------------------------------------------
   Spec-side predicates about segment lists, and patch-call sequences.
   --------------------------------------------------------------------------- -/

theorem length_dropWhile_le {α : Type} (p : α → Bool) (l : List α) :
    (l.dropWhile p).length ≤ l.length := by
  induction l with
  | nil => simp
  | cons c l ih =>
    by_cases h : p c
    · simp only [List.dropWhile_cons, h, if_true, List.length_cons]
      omega
    · simp [List.dropWhile_cons, h]

theorem dropWhile_append_of_all {α : Type} (p : α → Bool) (l1 l2 : List α)
    (h : ∀ c ∈ l1, p c = true) :
    (l1 ++ l2).dropWhile p = l2.dropWhile p := by
  induction l1 with
  | nil => simp
  | cons c l ih =>
    have hc : p c = true := h c (by simp)
    simp only [List.cons_append, List.dropWhile_cons, hc, if_true]
    exact ih (fun x hx => h x (by simp [hx]))

/- Path sandbox resolver. -/

theorem removeLastPathComponent_append (r e0 : Str) (h : '/' ∉ e0) :
    removeLastPathComponent (r ++ '/' :: e0) = r := by
  unfold removeLastPathComponent
  rw [List.reverse_append, List.reverse_cons]
  rw [List.append_assoc]
  rw [dropWhile_append_of_all _ _ _ (by
    intro c hc
    simp only [List.mem_reverse] at hc
    have : c ≠ '/' := fun he => h (he ▸ hc)
    simpa using this)]
  simp [List.dropWhile_cons]

/-- Claim C1: for every externally supplied relative path, the sandbox resolver
walks the `/`-separated components keeping a depth counter: a `.` component changes
nothing; a `..` component fails (no result) exactly when depth is 0 and otherwise
decrements depth and removes the last appended component; a component consisting
only of two or more `.` characters (reached after the `.` and `..` branches, i.e.
three or more dots) always fails; any other component is appended and increments
depth.  In particular `Canonicalize("../../etc/passwd", root, root)` fails,
`Canonicalize("...", root, root)` fails, `Canonicalize("a/../b", root, root)`
yields root ++ "/b", and a path beginning with `/` resolves under the SD root
regardless of the patch root. -/
theorem makeAbsolute_component_walk_and_sandbox
    (root sd patchRoot1 patchRoot2 : Str) (p : Str) (hp : p.head? = some '/') :
    (∀ result depth, processPathElement result depth ['.'] = some (result, depth)) ∧
    (∀ result, processPathElement result 0 ['.', '.'] = none) ∧
    (∀ r e0 depth, e0 ≠ [] → '/' ∉ e0 →
      processPathElement (r ++ '/' :: e0) (depth + 1) ['.', '.'] = some (r, depth)) ∧
    (∀ result depth element, element ≠ ['.'] → element ≠ ['.', '.'] →
      element.all (· == '.') = true → processPathElement result depth element = none) ∧
    (∀ result depth element, element.all (· == '.') = false →
      processPathElement result depth element = some (result ++ '/' :: element, depth + 1)) ∧
    MakeAbsoluteFromRelative root root ("../../etc/passwd".data) = none ∧
    MakeAbsoluteFromRelative root root ("...".data) = none ∧
    MakeAbsoluteFromRelative root root ("a/../b".data) = some (root ++ "/b".data) ∧
    MakeAbsoluteFromRelative sd patchRoot1 ("/x".data) = some (sd ++ "/x".data) ∧
    MakeAbsoluteFromRelative sd patchRoot1 p = MakeAbsoluteFromRelative sd patchRoot2 p := by
  refine ⟨?_, ?_, ?_, ?_, ?_, ?_, ?_, ?_, ?_, ?_⟩
  · intro result depth
    simp [processPathElement]
  · intro result
    simp [processPathElement]
  · intro r e0 depth he0 hslash
    simp [processPathElement, removeLastPathComponent_append r e0 hslash]
  · intro result depth element h1 h2 h3
    simp [processPathElement, h1, h2, h3]
  · intro result depth element h3
    have h1 : element ≠ ['.'] := by rintro rfl; simp at h3
    have h2 : element ≠ ['.', '.'] := by rintro rfl; simp at h3
    simp [processPathElement, h1, h2, h3]
  · simp +decide [MakeAbsoluteFromRelative, stripLeadingSeparators, stripTrailingSeparators,
      MakeAbsoluteFromRelativeLoop, processPathElement]
  · simp +decide [MakeAbsoluteFromRelative, stripLeadingSeparators, stripTrailingSeparators,
      MakeAbsoluteFromRelativeLoop, processPathElement]
  · simp +decide [MakeAbsoluteFromRelative, stripLeadingSeparators, stripTrailingSeparators,
      MakeAbsoluteFromRelativeLoop, processPathElement,
      removeLastPathComponent_append root ['a'] (by decide)]
  · simp +decide [MakeAbsoluteFromRelative, stripLeadingSeparators, stripTrailingSeparators,
      MakeAbsoluteFromRelativeLoop, processPathElement]
  · simp [MakeAbsoluteFromRelative, hp]

/- Splice builder: contiguous-tiling lemmas. -/

/-- Witness for `makeAbsolute_component_walk_and_sandbox` at concrete roots and path. -/
theorem makeAbsolute_component_walk_and_sandbox_witness :
    MakeAbsoluteFromRelative ("sd".data) ("sd".data) ("a/../b".data)
      = some ("sd".data ++ "/b".data) ∧
    MakeAbsoluteFromRelative ("sd".data) ("pr".data) ("/x".data)
      = some ("sd".data ++ "/x".data) :=
  ⟨(makeAbsolute_component_walk_and_sandbox ("sd".data) ("sd".data) ("pr".data) ("pr".data)
      ("/x".data) (by decide)).2.2.2.2.2.2.2.1,
   (makeAbsolute_component_walk_and_sandbox ("sd".data) ("sd".data) ("pr".data) ("pr".data)
      ("/x".data) (by decide)).2.2.2.2.2.2.2.2.1⟩

/- Split loop lemmas. -/

/-- Claim C3: for a file of size 100 consisting of a single `FileRegion` segment
`[0, 100)`, applying a non-resizing patch at offset 40 with length 10 (external
resource at least 10 bytes) produces exactly three segments: `[0, 40)` from the
original file source unchanged, `[40, 50)` from the external resource of the patch,
and `[50, 100)` from the original file source with its internal file offset advanced
by 50; the file size stays 100. -/
theorem applyPatch_splice_scenario (loader : FileDataLoader) (f p : Str) (fo n : Nat)
    (hsz : loader.GetExternalFileSize f = some n) (hn : 10 ≤ n) :
    ApplyPatchToFile loader ⟨100, [⟨0, 100, .contentFile p fo⟩]⟩ f 40 0 10 false
      = ⟨100, [⟨0, 40, .contentFile p fo⟩,
               loader.MakeContentSource f 0 10 40,
               ⟨50, 50, .contentFile p (fo + 50)⟩]⟩ := by
  have hmin : min (10 : Nat) (n - 0) = 10 := by omega
  have hmin2 : min (10 : Nat) n = 10 := by omega
  have h9 : ¬ (n ≤ 9) := by omega
  have h1n : 1 ≤ n := by omega
  simp +decide +arith [ApplyPatchToFile, hsz, splitLoop, splitSegmentAt, strictlyInside,
    SplitAt, eraseAndFindInsert, dropContained, insertPatchEntries, dropTrailing, hmin,
    hmin2, h9, h1n, List.insertIdx, List.dropWhile]

/-- Witness for `applyPatch_splice_scenario` with a concrete loader holding exactly
10 external bytes. -/
theorem applyPatch_splice_scenario_witness :
    ApplyPatchToFile
        ⟨fun _ => some 10, fun g eo sz d => ⟨d, sz, .contentFile g eo⟩, fun _ => []⟩
        ⟨100, [⟨0, 100, .contentFile ['p'] 7⟩]⟩ ['f'] 40 0 10 false
      = ⟨100, [⟨0, 40, .contentFile ['p'] 7⟩,
               ⟨40, 10, .contentFile ['f'] 0⟩,
               ⟨50, 50, .contentFile ['p'] 57⟩]⟩ :=
  applyPatch_splice_scenario
    ⟨fun _ => some 10, fun g eo sz d => ⟨d, sz, .contentFile g eo⟩, fun _ => []⟩
    ['f'] ['p'] 7 10 rfl (by decide)

/-- Claim C4: for an empty file (size 0, no segments), applying a patch at offset 0
with requested length 20 whose external resource holds only 5 bytes produces exactly
two segments, `[0, 5)` sourced from the external resource and `[5, 20)` of
`FixedFill(0)` padding, and the file size becomes 20 (for either value of the
resize flag). -/
theorem applyPatch_padding_scenario (loader : FileDataLoader) (f : Str) (resize : Bool)
    (hsz : loader.GetExternalFileSize f = some 5) :
    ApplyPatchToFile loader ⟨0, []⟩ f 0 0 20 resize
      = ⟨20, [loader.MakeContentSource f 0 5 0, ⟨5, 15, .contentFixedByte 0⟩]⟩ := by
  cases resize <;>
  simp +decide [ApplyPatchToFile, hsz, insertPatchEntries, dropTrailing, List.insertIdx,
    List.dropWhile]

/-- Witness for `applyPatch_padding_scenario` with a concrete loader holding exactly
5 external bytes. -/
theorem applyPatch_padding_scenario_witness :
    ApplyPatchToFile
        ⟨fun _ => some 5, fun g eo sz d => ⟨d, sz, .contentFile g eo⟩, fun _ => []⟩
        ⟨0, []⟩ ['f'] 0 0 20 false
      = ⟨20, [⟨0, 5, .contentFile ['f'] 0⟩, ⟨5, 15, .contentFixedByte 0⟩]⟩ :=
  applyPatch_padding_scenario
    ⟨fun _ => some 5, fun g eo sz d => ⟨d, sz, .contentFile g eo⟩, fun _ => []⟩
    ['f'] false rfl

/-- Claim C6 is false as stated: a file patch whose disc path is "/main.dol" (the
name of the primary executable carrying a leading slash) takes the leading-slash
tree-lookup branch, patching the tree node named main.dol and leaving the
distinguished DOL node untouched, even though patching the DOL node would have
changed it (its size would become 5). -/
theorem applyFilePatch_maindol_slash_cex :
    ApplyFilePatchToFST
        ⟨fun _ => some 5, fun g eo sz d => ⟨d, sz, .contentFile g eo⟩, fun _ => []⟩
        ⟨'/' :: ['m', 'a', 'i', 'n', '.', 'd', 'o', 'l'], ['e'], false, false, 0, 0, 0⟩
        [.file ['m', 'a', 'i', 'n', '.', 'd', 'o', 'l'] 0 []]
        (.file ['m', 'a', 'i', 'n', '.', 'd', 'o', 'l'] 0 [])
      = ([.file ['m', 'a', 'i', 'n', '.', 'd', 'o', 'l'] 5 [⟨0, 5, .contentFile ['e'] 0⟩]],
         .file ['m', 'a', 'i', 'n', '.', 'd', 'o', 'l'] 0 []) ∧
    (applyPatchToFileNode
        ⟨fun _ => some 5, fun g eo sz d => ⟨d, sz, .contentFile g eo⟩, fun _ => []⟩
        ⟨'/' :: ['m', 'a', 'i', 'n', '.', 'd', 'o', 'l'], ['e'], false, false, 0, 0, 0⟩
        (.file ['m', 'a', 'i', 'n', '.', 'd', 'o', 'l'] 0 [])).m_size = 5 ∧
    (FSTBuilderNode.file ['m', 'a', 'i', 'n', '.', 'd', 'o', 'l'] 0 []).m_size = 0 := by
  refine ⟨?_, ?_, rfl⟩
  · simp +decide [ApplyFilePatchToFST, FindFileNodeInFST, applyPatchToFileNode,
      CaseInsensitiveEquals, ToLower, ApplyPatchToFileDirective, ApplyPatchToFile, alignDown4,
      insertPatchEntries, dropTrailing, FSTBuilderNode.m_filename, List.dropWhile,
      List.takeWhile, List.insertIdx]
  · simp +decide [applyPatchToFileNode, ApplyPatchToFileDirective, ApplyPatchToFile,
      alignDown4, insertPatchEntries, dropTrailing, FSTBuilderNode.m_size, List.insertIdx,
      List.dropWhile]

/-- Claim C6 (amended): a file patch directive whose disc path does not begin with
`/` and that names the primary executable "main.dol" (the entire path compared
case-insensitively) bypasses tree lookup: the tree is returned unchanged and the
distinguished DOL node supplied by the caller is patched directly.  A path with a
leading `/` or with folder components does not take this branch. -/
theorem applyFilePatch_maindol_dispatch (loader : FileDataLoader) (file : File)
    (fst : List FSTBuilderNode) (dol_node : FSTBuilderNode)
    (hs : file.m_disc.head? ≠ some '/')
    (hm : CaseInsensitiveEquals file.m_disc ['m', 'a', 'i', 'n', '.', 'd', 'o', 'l'] = true) :
    ApplyFilePatchToFST loader file fst dol_node
      = (fst, applyPatchToFileNode loader file dol_node) := by
  unfold ApplyFilePatchToFST
  rw [if_neg hs, if_pos hm]

/-- Witness for `applyFilePatch_maindol_dispatch`: the path "MAIN.dol" without a
leading slash patches the DOL node. -/
theorem applyFilePatch_maindol_dispatch_witness :
    ApplyFilePatchToFST
        ⟨fun _ => some 5, fun g eo sz d => ⟨d, sz, .contentFile g eo⟩, fun _ => []⟩
        ⟨['M', 'A', 'I', 'N', '.', 'd', 'o', 'l'], ['e'], false, false, 0, 0, 0⟩
        [] (.file ['m', 'a', 'i', 'n', '.', 'd', 'o', 'l'] 0 [])
      = ([], applyPatchToFileNode
          ⟨fun _ => some 5, fun g eo sz d => ⟨d, sz, .contentFile g eo⟩, fun _ => []⟩
          ⟨['M', 'A', 'I', 'N', '.', 'd', 'o', 'l'], ['e'], false, false, 0, 0, 0⟩
          (.file ['m', 'a', 'i', 'n', '.', 'd', 'o', 'l'] 0 [])) :=
  applyFilePatch_maindol_dispatch
    ⟨fun _ => some 5, fun g eo sz d => ⟨d, sz, .contentFile g eo⟩, fun _ => []⟩
    ⟨['M', 'A', 'I', 'N', '.', 'd', 'o', 'l'], ['e'], false, false, 0, 0, 0⟩
    [] (.file ['m', 'a', 'i', 'n', '.', 'd', 'o', 'l'] 0 [])
    (by decide) (by decide)

/- Memory patch engine lemmas. -/

theorem writeValueBytes_out {mem : MemState} {offset a : Nat} {value : List Nat}
    (h : ∀ i, i < value.length → a ≠ (offset + i) % 2 ^ 32) :
    writeValueBytes mem offset value a = mem a := by
  induction value generalizing mem offset with
  | nil => rfl
  | cons v rest ih =>
    simp only [writeValueBytes]
    rw [ih (by
      intro i hi
      have h2 := h (i + 1) (by simp only [List.length_cons]; omega)
      have h3 : offset + (i + 1) = offset + 1 + i := by omega
      rw [h3] at h2
      exact h2)]
    simp only [HostTryWriteU8]
    rw [if_neg (by
      have h0 := h 0 (by simp only [List.length_cons]; omega)
      simpa using h0)]

theorem writeValueBytes_at (mem : MemState) (offset : Nat) (value : List Nat)
    (hnw : offset + value.length ≤ 2 ^ 32) :
    ∀ i, i < value.length →
      writeValueBytes mem offset value ((offset + i) % 2 ^ 32)
        = match mem ((offset + i) % 2 ^ 32) with
          | some _ => some (value.getD i 0 % 2 ^ 8)
          | none => none := by
  induction value generalizing mem offset with
  | nil =>
    intro i hi
    simp at hi
  | cons v rest ih =>
    intro i hi
    simp only [List.length_cons] at hi hnw
    have hofflt : offset < 2 ^ 32 := by omega
    cases i with
    | zero =>
      simp only [writeValueBytes, Nat.add_zero, List.getD_cons_zero,
        Nat.mod_eq_of_lt hofflt]
      rw [writeValueBytes_out (by
        intro j hj
        rw [Nat.mod_eq_of_lt (by omega : offset + 1 + j < 2 ^ 32)]
        omega)]
      simp only [HostTryWriteU8]
      rw [Nat.mod_eq_of_lt hofflt, if_pos rfl]
    | succ j =>
      simp only [writeValueBytes, List.getD_cons_succ]
      have h4 : offset + (j + 1) = offset + 1 + j := by omega
      rw [h4]
      rw [ih (HostTryWriteU8 mem v offset) (offset + 1) (by omega) j (by omega)]
      rw [Nat.mod_eq_of_lt (by omega : offset + 1 + j < 2 ^ 32)]
      simp only [HostTryWriteU8]
      rw [if_neg (by rw [Nat.mod_eq_of_lt hofflt]; omega)]

/-- Claim C7: for every direct memory patch with non-empty expected original: if
any byte at the target range differs from the expected original or is unreadable
(`MemoryMatchesAt` is false), the patch writes nothing at all — memory, hooks and
warning log are unchanged; otherwise every byte of the value is written at the
address byte by byte (an unmapped byte write is silently dropped, per the spec
memory interface), and afterwards the hook registry is unpatched exactly once over
the written range `[address, address + len(value))`, removing exactly the
registered hooks there and logging their count when nonzero. -/
theorem applyMemoryPatch_direct_spec (st : MemPatchState) (offset : Nat)
    (value original : List Nat) (hor : original ≠ [])
    (hnw : offset + value.length < 2 ^ 32) :
    (MemoryMatchesAt st.mem offset original = false →
      ApplyMemoryPatch st offset value original = st) ∧
    (MemoryMatchesAt st.mem offset original = true → value ≠ [] →
      ApplyMemoryPatch st offset value original
        = { mem := writeValueBytes st.mem offset value,
            hooks := (UnpatchRange st.hooks offset (offset + value.length)).1,
            warnings :=
              if (UnpatchRange st.hooks offset (offset + value.length)).2 ≠ 0 then
                st.warnings ++ [(UnpatchRange st.hooks offset (offset + value.length)).2]
              else st.warnings } ∧
      (∀ i, i < value.length →
        (ApplyMemoryPatch st offset value original).mem (offset + i)
          = match st.mem (offset + i) with
            | some _ => some (value.getD i 0 % 2 ^ 8)
            | none => none) ∧
      (∀ a, (∀ i, i < value.length → a ≠ offset + i) →
        (ApplyMemoryPatch st offset value original).mem a = st.mem a)) := by
  constructor
  · intro hmm2
    by_cases hv : value = []
    · simp [ApplyMemoryPatch, hv]
    · unfold ApplyMemoryPatch
      rw [if_neg hv, if_pos ⟨hor, hmm2⟩]
  · intro hmm2 hv
    have happly : ApplyMemoryPatch st offset value original
        = { mem := writeValueBytes st.mem offset value,
            hooks := (UnpatchRange st.hooks offset (offset + value.length)).1,
            warnings :=
              if (UnpatchRange st.hooks offset (offset + value.length)).2 ≠ 0 then
                st.warnings ++ [(UnpatchRange st.hooks offset (offset + value.length)).2]
              else st.warnings } := by
      unfold ApplyMemoryPatch
      rw [if_neg hv, if_neg (by
        intro hc
        rw [hmm2] at hc
        cases hc.2)]
      rw [Nat.mod_eq_of_lt (by omega : offset < 2 ^ 32),
        Nat.mod_eq_of_lt (by omega : offset + value.length < 2 ^ 32)]
    refine ⟨happly, ?_, ?_⟩
    · intro i hi
      rw [happly]
      have h9 := writeValueBytes_at st.mem offset value (by omega) i hi
      rw [Nat.mod_eq_of_lt (by omega : offset + i < 2 ^ 32)] at h9
      exact h9
    · intro a ha
      rw [happly]
      exact writeValueBytes_out (by
        intro i hi
        rw [Nat.mod_eq_of_lt (by omega : offset + i < 2 ^ 32)]
        exact ha i hi)

/-- Witness for `applyMemoryPatch_direct_spec`: a concrete matching patch with a
hook inside the written range. -/
theorem applyMemoryPatch_direct_spec_witness :
    MemoryMatchesAt (fun a => if a < 4 then some 1 else none) 1 [1] = true ∧
    ApplyMemoryPatch ⟨fun a => if a < 4 then some 1 else none, [2, 100], []⟩ 1 [9, 9] [1]
      = { mem := writeValueBytes (fun a => if a < 4 then some 1 else none) 1 [9, 9],
          hooks := (UnpatchRange [2, 100] 1 (1 + [9, 9].length)).1,
          warnings :=
            if (UnpatchRange [2, 100] 1 (1 + [9, 9].length)).2 ≠ 0 then
              [] ++ [(UnpatchRange [2, 100] 1 (1 + [9, 9].length)).2]
            else [] } :=
  ⟨rfl,
   ((applyMemoryPatch_direct_spec ⟨fun a => if a < 4 then some 1 else none, [2, 100], []⟩
      1 [9, 9] [1] (by decide) (by decide)).2 rfl (by decide)).1⟩

theorem lt_ceilDiv_iff {s b k : Nat} (hs : 0 < s) : k < (b + s - 1) / s ↔ k * s < b := by
  rw [show (k < (b + s - 1) / s) = (k + 1 ≤ (b + s - 1) / s) from rfl]
  rw [Nat.le_div_iff_mul_le hs]
  rw [Nat.succ_mul]
  omega

theorem scanFirst_none {p : Nat → Bool} {stride : Nat} {i steps : Nat}
    (h : ∀ m, m < steps → p (i + m * stride) = false) :
    scanFirst p stride i steps = none := by
  induction steps generalizing i with
  | zero => rfl
  | succ n ih =>
    simp only [scanFirst]
    rw [if_neg (by
      have h0 := h 0 (by omega)
      simp only [Nat.zero_mul, Nat.add_zero] at h0
      simp [h0])]
    exact ih (by
      intro m hm
      have h2 := h (m + 1) (by omega)
      have h3 : i + (m + 1) * stride = i + stride + m * stride := by ring
      rw [h3] at h2
      exact h2)

theorem scanFirst_first {p : Nat → Bool} {stride : Nat} {i steps m0 : Nat}
    (hm0 : m0 < steps) (hp : p (i + m0 * stride) = true)
    (hbefore : ∀ m, m < m0 → p (i + m * stride) = false) :
    scanFirst p stride i steps = some (i + m0 * stride) := by
  induction m0 generalizing i steps with
  | zero =>
    cases steps with
    | zero => omega
    | succ n =>
      simp only [scanFirst]
      simp only [Nat.zero_mul, Nat.add_zero] at hp ⊢
      rw [if_pos hp]
  | succ k ih =>
    cases steps with
    | zero => omega
    | succ n =>
      simp only [scanFirst]
      rw [if_neg (by
        have h0 := hbefore 0 (by omega)
        simp only [Nat.zero_mul, Nat.add_zero] at h0
        simp [h0])]
      have h3 : i + (k + 1) * stride = i + stride + k * stride := by ring
      rw [h3]
      rw [h3] at hp
      exact ih (by omega) hp (by
        intro m hm
        have h2 := hbefore (m + 1) (by omega)
        have h4 : i + (m + 1) * stride = i + stride + m * stride := by ring
        rw [h4] at h2
        exact h2)

/-- Claim C8 is false as stated: with stride 4 and scan length 6, the loop bound
`length - (stride - 1)` stops the scan after offset 0, so the first (and only)
in-range matching address, at offset 4, is never examined and no write happens
even though the claim promises the direct write there. -/
theorem applySearch_range_cex :
    MemoryMatchesAt (fun a => if a = 0x80000004 then some 1 else
        if 0x80000000 ≤ a ∧ a < 0x80000008 then some 0 else none)
      (0x80000000 + 4) [1] = true ∧
    ApplySearchMemoryPatch
        ⟨fun _ => some 5, fun g eo sz d => ⟨d, sz, .contentFile g eo⟩, fun _ => []⟩
        ⟨(fun a => if a = 0x80000004 then some 1 else
            if 0x80000000 ≤ a ∧ a < 0x80000008 then some 0 else none), [], []⟩
        ⟨0, [7], [], [1], false, true, 4⟩ 0x80000000 6
      = ⟨(fun a => if a = 0x80000004 then some 1 else
            if 0x80000000 ≤ a ∧ a < 0x80000008 then some 0 else none), [], []⟩ ∧
    (ApplyMemoryPatch
        ⟨(fun a => if a = 0x80000004 then some 1 else
            if 0x80000000 ≤ a ∧ a < 0x80000008 then some 0 else none), [], []⟩
        (0x80000000 + 4) [7] []).mem (0x80000000 + 4) = some 7 := by
  refine ⟨by decide, rfl, by decide⟩

/-- Claim C8 (amended): for every search memory patch with non-empty
expected_original and search_stride > 0 such that the u32 loop bound does not
underflow (stride - 1 ≤ scan_length, with scan_length and the range end within
u32), the engine examines exactly the addresses scan_start + k*stride with
k*stride < scan_length - (stride - 1) — all of which lie within
[scan_start, scan_start + scan_length) — and at the first examined address whose
bytes all match expected_original it applies the direct write of the patch value
there without re-checking the original bytes, then stops scanning; if no examined
address matches, the state is left unchanged and no error is raised. -/
theorem applySearch_first_match_spec (loader : FileDataLoader) (st : MemPatchState)
    (mp : Memory) (ram_start length : Nat)
    (hor : mp.m_original ≠ []) (hal : 0 < mp.m_align)
    (hub : mp.m_align - 1 ≤ length) (hlen : length < 2 ^ 32)
    (hrs : ram_start + length ≤ 2 ^ 32) :
    (∀ k, k * mp.m_align < length - (mp.m_align - 1) →
      ram_start ≤ ram_start + k * mp.m_align ∧
        ram_start + k * mp.m_align < ram_start + length) ∧
    ((∀ k, k * mp.m_align < length - (mp.m_align - 1) →
        MemoryMatchesAt st.mem (ram_start + k * mp.m_align) mp.m_original = false) →
      ApplySearchMemoryPatch loader st mp ram_start length = st) ∧
    (∀ k0, k0 * mp.m_align < length - (mp.m_align - 1) →
      MemoryMatchesAt st.mem (ram_start + k0 * mp.m_align) mp.m_original = true →
      (∀ k, k < k0 →
        MemoryMatchesAt st.mem (ram_start + k * mp.m_align) mp.m_original = false) →
      ApplySearchMemoryPatch loader st mp ram_start length
        = ApplyMemoryPatch st (ram_start + k0 * mp.m_align)
            (GetMemoryPatchValue loader mp) []) := by
  have hbound : (length + 2 ^ 32 - (mp.m_align - 1)) % 2 ^ 32
      = length - (mp.m_align - 1) := by omega
  have hcond : ¬ (mp.m_original = [] ∨ mp.m_align = 0) := by
    rintro (hc | hc)
    · exact hor hc
    · omega
  refine ⟨?_, ?_, ?_⟩
  · intro k hk
    constructor
    · omega
    · have : k * mp.m_align < length := by omega
      omega
  · intro hnone
    unfold ApplySearchMemoryPatch
    rw [if_neg hcond]
    simp only [hbound]
    rw [scanFirst_none (by
      intro m hm
      rw [lt_ceilDiv_iff hal] at hm
      have haddr : m * mp.m_align < length := by omega
      rw [Nat.zero_add, Nat.mod_eq_of_lt (by omega : ram_start + m * mp.m_align < 2 ^ 32)]
      exact hnone m hm)]
  · intro k0 hk0 hmatch hbefore
    unfold ApplySearchMemoryPatch
    rw [if_neg hcond]
    simp only [hbound]
    rw [scanFirst_first (by rw [lt_ceilDiv_iff hal]; exact hk0)
      (by
        rw [Nat.zero_add,
          Nat.mod_eq_of_lt (by
            have : k0 * mp.m_align < length := by omega
            omega : ram_start + k0 * mp.m_align < 2 ^ 32)]
        exact hmatch)
      (by
        intro m hm
        rw [Nat.zero_add,
          Nat.mod_eq_of_lt (by
            have h5 : m * mp.m_align < k0 * mp.m_align :=
              (Nat.mul_lt_mul_right hal).mpr hm
            have : m * mp.m_align < length := by omega
            omega : ram_start + m * mp.m_align < 2 ^ 32)]
        exact hbefore m hm)]
    simp only [Nat.zero_add, Nat.mod_eq_of_lt (by
      have : k0 * mp.m_align < length := by omega
      omega : ram_start + k0 * mp.m_align < 2 ^ 32)]

/-- Witness for `applySearch_first_match_spec`: stride 4, scan length 8, the
pattern matches at the second examined address. -/
theorem applySearch_first_match_spec_witness :
    ApplySearchMemoryPatch
        ⟨fun _ => some 5, fun g eo sz d => ⟨d, sz, .contentFile g eo⟩, fun _ => []⟩
        ⟨(fun a => if a = 4 then some 1 else if a < 8 then some 0 else none), [], []⟩
        ⟨0, [7], [], [1], false, true, 4⟩ 0 8
      = ApplyMemoryPatch
          ⟨(fun a => if a = 4 then some 1 else if a < 8 then some 0 else none), [], []⟩
          (0 + 1 * 4) [7] [] :=
  (applySearch_first_match_spec
    ⟨fun _ => some 5, fun g eo sz d => ⟨d, sz, .contentFile g eo⟩, fun _ => []⟩
    ⟨(fun a => if a = 4 then some 1 else if a < 8 then some 0 else none), [], []⟩
    ⟨0, [7], [], [1], false, true, 4⟩ 0 8
    (by decide) (by decide) (by decide) (by decide) (by decide)).2.2 1
    (by decide) (by decide) (by decide)

theorem HostTryWriteU32_out {mem : MemState} {v addr a : Nat}
    (h0 : a ≠ addr % 2 ^ 32) (h1 : a ≠ (addr + 1) % 2 ^ 32)
    (h2 : a ≠ (addr + 2) % 2 ^ 32) (h3 : a ≠ (addr + 3) % 2 ^ 32) :
    HostTryWriteU32 mem v addr a = mem a := by
  simp only [HostTryWriteU32, HostTryWriteU8]
  rw [if_neg h3, if_neg h2, if_neg h1, if_neg h0]

/-- Claim C9: for an ocarina memory patch whose byte pattern first matches at
address `A = ram_start + k0*4` and whose next unconditional-return instruction
(0x4e800020) after `A` sits at `A + 16`: applying the patch overwrites the word at
`A + 16` with a jump whose displacement is `(T - (A+16))` in u32 arithmetic masked
with 0x03fffffc and combined with the fixed opcode bits 0x48000000, where
`T = m_offset | 0x80000000` is the target address of the patch; the hook registry
is unpatched exactly over `[A+16, A+20)` (removing exactly the hooks there and
logging their count when nonzero), no other memory is modified, and scanning
stops. -/
theorem applyOcarina_hook_scenario (loader : FileDataLoader) (st : MemPatchState)
    (mp : Memory) (ram_start length k0 : Nat)
    (hoff : mp.m_offset ≠ 0)
    (hv : GetMemoryPatchValue loader mp ≠ [])
    (hfirst : ∀ k, k < k0 →
      MemoryMatchesAt st.mem (ram_start + k * 4) (GetMemoryPatchValue loader mp) = false)
    (hmatch : MemoryMatchesAt st.mem (ram_start + k0 * 4) (GetMemoryPatchValue loader mp)
      = true)
    (hnoblr : ∀ j, j < 4 →
      HostTryReadU32 st.mem (ram_start + (k0 * 4 + j * 4)) ≠ some 0x4e800020)
    (hblr : HostTryReadU32 st.mem (ram_start + (k0 * 4 + 16)) = some 0x4e800020)
    (hlen : k0 * 4 + 16 < length)
    (hrs : ram_start + length + 4 ≤ 2 ^ 32) :
    ApplyOcarinaMemoryPatch loader st mp ram_start length
      = { mem := HostTryWriteU32 st.mem
            ((((mp.m_offset ||| 0x80000000) + 2 ^ 32 - (ram_start + (k0 * 4 + 16))) % 2 ^ 32
                &&& 0x03fffffc) ||| 0x48000000)
            (ram_start + (k0 * 4 + 16)),
          hooks := (UnpatchRange st.hooks (ram_start + (k0 * 4 + 16))
            (ram_start + (k0 * 4 + 16) + 4)).1,
          warnings :=
            if (UnpatchRange st.hooks (ram_start + (k0 * 4 + 16))
                (ram_start + (k0 * 4 + 16) + 4)).2 ≠ 0 then
              st.warnings ++ [(UnpatchRange st.hooks (ram_start + (k0 * 4 + 16))
                (ram_start + (k0 * 4 + 16) + 4)).2]
            else st.warnings } ∧
    (∀ a, a ≠ ram_start + (k0 * 4 + 16) → a ≠ ram_start + (k0 * 4 + 16) + 1 →
      a ≠ ram_start + (k0 * 4 + 16) + 2 → a ≠ ram_start + (k0 * 4 + 16) + 3 →
      (ApplyOcarinaMemoryPatch loader st mp ram_start length).mem a = st.mem a) := by
  have houter : scanFirst
      (fun i => MemoryMatchesAt st.mem ((ram_start + i) % 2 ^ 32)
        (GetMemoryPatchValue loader mp)) 4 0 ((length + 3) / 4)
      = some (0 + k0 * 4) := by
    apply scanFirst_first
    · omega
    · rw [Nat.zero_add, Nat.mod_eq_of_lt (by omega : ram_start + k0 * 4 < 2 ^ 32)]
      exact hmatch
    · intro m hm
      rw [Nat.zero_add, Nat.mod_eq_of_lt (by omega : ram_start + m * 4 < 2 ^ 32)]
      exact hfirst m hm
  have hinner : scanFirst
      (fun i => HostTryReadU32 st.mem ((ram_start + i) % 2 ^ 32) == some 0x4e800020)
      4 (0 + k0 * 4) ((length + 3) / 4 - (0 + k0 * 4) / 4)
      = some (0 + k0 * 4 + 4 * 4) := by
    apply scanFirst_first
    · omega
    · rw [beq_iff_eq]
      rw [show 0 + k0 * 4 + 4 * 4 = k0 * 4 + 16 by omega]
      rw [Nat.mod_eq_of_lt (by omega : ram_start + (k0 * 4 + 16) < 2 ^ 32)]
      exact hblr
    · intro m hm
      rw [beq_eq_false_iff_ne]
      rw [show 0 + k0 * 4 + m * 4 = k0 * 4 + m * 4 by omega]
      rw [Nat.mod_eq_of_lt (by omega : ram_start + (k0 * 4 + m * 4) < 2 ^ 32)]
      exact hnoblr m hm
  have hmain : ApplyOcarinaMemoryPatch loader st mp ram_start length
      = { mem := HostTryWriteU32 st.mem
            ((((mp.m_offset ||| 0x80000000) + 2 ^ 32 - (ram_start + (k0 * 4 + 16))) % 2 ^ 32
                &&& 0x03fffffc) ||| 0x48000000)
            (ram_start + (k0 * 4 + 16)),
          hooks := (UnpatchRange st.hooks (ram_start + (k0 * 4 + 16))
            (ram_start + (k0 * 4 + 16) + 4)).1,
          warnings :=
            if (UnpatchRange st.hooks (ram_start + (k0 * 4 + 16))
                (ram_start + (k0 * 4 + 16) + 4)).2 ≠ 0 then
              st.warnings ++ [(UnpatchRange st.hooks (ram_start + (k0 * 4 + 16))
                (ram_start + (k0 * 4 + 16) + 4)).2]
            else st.warnings } := by
    unfold ApplyOcarinaMemoryPatch
    rw [if_neg hoff]
    simp only [if_neg hv, houter, hinner]
    rw [show 0 + k0 * 4 + 4 * 4 = k0 * 4 + 16 by omega]
    rw [Nat.mod_eq_of_lt (by omega : ram_start + (k0 * 4 + 16) < 2 ^ 32)]
    rw [Nat.mod_eq_of_lt (by omega : ram_start + (k0 * 4 + 16) + 4 < 2 ^ 32)]
  refine ⟨hmain, ?_⟩
  intro a ha0 ha1 ha2 ha3
  rw [hmain]
  exact HostTryWriteU32_out
    (by rw [Nat.mod_eq_of_lt (by omega : ram_start + (k0 * 4 + 16) < 2 ^ 32)]; exact ha0)
    (by rw [Nat.mod_eq_of_lt (by omega : ram_start + (k0 * 4 + 16) + 1 < 2 ^ 32)]; exact ha1)
    (by rw [Nat.mod_eq_of_lt (by omega : ram_start + (k0 * 4 + 16) + 2 < 2 ^ 32)]; exact ha2)
    (by rw [Nat.mod_eq_of_lt (by omega : ram_start + (k0 * 4 + 16) + 3 < 2 ^ 32)]; exact ha3)

/-- Witness for `applyOcarina_hook_scenario`: the pattern `[1]` matches at the very
first scanned address, the `blr` word sits 16 bytes later, and one registered hook
(at the rewritten word) is removed and logged. -/
theorem applyOcarina_hook_scenario_witness :
    ApplyOcarinaMemoryPatch
        ⟨fun _ => some 5, fun g eo sz d => ⟨d, sz, .contentFile g eo⟩, fun _ => []⟩
        ⟨(fun a => if a = 0 then some 1 else if a = 16 then some 0x4e
            else if a = 17 then some 0x80 else if a = 18 then some 0
            else if a = 19 then some 0x20 else if a < 32 then some 0 else none),
          [16, 40], []⟩
        ⟨0x40, [1], [], [], true, false, 0⟩ 0 32
      = { mem := HostTryWriteU32
            (fun a => if a = 0 then some 1 else if a = 16 then some 0x4e
              else if a = 17 then some 0x80 else if a = 18 then some 0
              else if a = 19 then some 0x20 else if a < 32 then some 0 else none)
            ((((0x40 ||| 0x80000000) + 2 ^ 32 - (0 + (0 * 4 + 16))) % 2 ^ 32
                &&& 0x03fffffc) ||| 0x48000000)
            (0 + (0 * 4 + 16)),
          hooks := (UnpatchRange [16, 40] (0 + (0 * 4 + 16)) (0 + (0 * 4 + 16) + 4)).1,
          warnings :=
            if (UnpatchRange [16, 40] (0 + (0 * 4 + 16))
                (0 + (0 * 4 + 16) + 4)).2 ≠ 0 then
              [] ++ [(UnpatchRange [16, 40] (0 + (0 * 4 + 16)) (0 + (0 * 4 + 16) + 4)).2]
            else [] } :=
  (applyOcarina_hook_scenario
    ⟨fun _ => some 5, fun g eo sz d => ⟨d, sz, .contentFile g eo⟩, fun _ => []⟩
    ⟨(fun a => if a = 0 then some 1 else if a = 16 then some 0x4e
        else if a = 17 then some 0x80 else if a = 18 then some 0
        else if a = 19 then some 0x20 else if a < 32 then some 0 else none),
      [16, 40], []⟩
    ⟨0x40, [1], [], [], true, false, 0⟩ 0 32 0
    (by decide) (by decide)
    (fun k hk => absurd hk (Nat.not_lt_zero k))
    (by decide) (by decide) (by decide) (by decide) (by decide)).1

/-- Claim C10 is false as stated: when the address offset already has bit 31 set,
`offset | 0x80000000` equals the raw offset itself, so the bytes ARE written at
the raw offset — here a non-search, non-hook directive with offset 0x80000000
writes its byte exactly at 0x80000000. -/
theorem memoryPatch_mirror_cex :
    (0x80000000 ||| 0x80000000) = (0x80000000 : Nat) ∧
    (ApplyGeneralMemoryPatchStep
        ⟨fun _ => some 5, fun g eo sz d => ⟨d, sz, .contentFile g eo⟩, fun _ => []⟩
        0x1800000
        ⟨(fun a => if a = 0x80000000 then some 0 else none), [], []⟩
        ⟨0x80000000, [7], [], [], false, false, 0⟩).mem 0x80000000 = some 7 := by
  refine ⟨by decide, by decide⟩

/-- Claim C10 (amended): for every non-search, non-hook memory patch directive,
the patch is skipped entirely when its address offset equals 0, and otherwise the
direct patch is applied at `offset | 0x80000000` — an address that always lies in
the high virtual-memory mirror (bit 31 set, so at least 0x80000000); it coincides
with the raw offset exactly when the raw offset already has bit 31 set. -/
theorem memoryPatch_dispatch_mirror (loader : FileDataLoader) (ram_size : Nat)
    (st : MemPatchState) (mp : Memory)
    (hoc : mp.m_ocarina = false) (hse : mp.m_search = false) :
    (mp.m_offset = 0 → ApplyGeneralMemoryPatchStep loader ram_size st mp = st) ∧
    (mp.m_offset ≠ 0 →
      ApplyGeneralMemoryPatchStep loader ram_size st mp
        = ApplyMemoryPatch st (mp.m_offset ||| 0x80000000)
            (GetMemoryPatchValue loader mp) mp.m_original ∧
      (mp.m_offset ||| 0x80000000).testBit 31 = true ∧
      2 ^ 31 ≤ mp.m_offset ||| 0x80000000) := by
  have ht : (mp.m_offset ||| 0x80000000).testBit 31 = true := by
    rw [Nat.testBit_lor, show Nat.testBit 0x80000000 31 = true from by decide,
      Bool.or_true]
  constructor
  · intro h0
    unfold ApplyGeneralMemoryPatchStep ApplyMemoryPatchDirective
    rw [hoc, hse]
    simp only [Bool.false_eq_true, if_false]
    rw [if_pos h0]
  · intro hne
    refine ⟨?_, ht, ?_⟩
    · unfold ApplyGeneralMemoryPatchStep ApplyMemoryPatchDirective
      rw [hoc, hse]
      simp only [Bool.false_eq_true, if_false]
      rw [if_neg hne]
    · by_contra hlt
      have hfalse : (mp.m_offset ||| 0x80000000).testBit 31 = false :=
        Nat.testBit_lt_two_pow (by omega)
      rw [ht] at hfalse
      exact absurd hfalse (by decide)

/-- Witness for `memoryPatch_dispatch_mirror`: a plain directive at offset 0x40 is
routed to the direct patch at 0x80000040, which has bit 31 set. -/
theorem memoryPatch_dispatch_mirror_witness :
    ApplyGeneralMemoryPatchStep
        ⟨fun _ => some 5, fun g eo sz d => ⟨d, sz, .contentFile g eo⟩, fun _ => []⟩
        0x1800000 ⟨(fun _ => some 0), [], []⟩
        ⟨0x40, [7], [], [], false, false, 0⟩
      = ApplyMemoryPatch ⟨(fun _ => some 0), [], []⟩ (0x40 ||| 0x80000000)
          (GetMemoryPatchValue
            ⟨fun _ => some 5, fun g eo sz d => ⟨d, sz, .contentFile g eo⟩, fun _ => []⟩
            ⟨0x40, [7], [], [], false, false, 0⟩) [] ∧
    (0x40 ||| 0x80000000).testBit 31 = true ∧
    2 ^ 31 ≤ 0x40 ||| 0x80000000 :=
  (memoryPatch_dispatch_mirror
    ⟨fun _ => some 5, fun g eo sz d => ⟨d, sz, .contentFile g eo⟩, fun _ => []⟩
    0x1800000 ⟨(fun _ => some 0), [], []⟩
    ⟨0x40, [7], [], [], false, false, 0⟩ rfl rfl).2 (by decide)

end Riivolution
